import Mathlib

/-!
Verification of the storage / delivery engine of `cloud-pubsub-emulator-lite`.

The Go source keeps all state in one `Storage` value:

  type Storage struct {
      topics        map[string]*Topic
      subscriptions map[string]*Subscription
      messages      map[string][]*InternalMessage // key: subscription name
  }

We embed it shallowly: maps become association lists with unique-key
discipline maintained by the operations; `time.Time` becomes `Nat`
(the zero value `time.Time{}` becomes `0`, `t.Before(u)` becomes `t < u`,
`t.Add(d)` becomes `t + d`); the injected uuid generator becomes a `Nat`
counter threaded through `Storage` (each generated identifier is the
current counter value, so freshly generated identifiers are distinct);
Go's `(value, error)` returns become `Except`.
-/

/-- Mirrors `Subscription` (models.go): name and the owning topic name. -/
structure Subscription where
  name : String
  topic : String
deriving DecidableEq, Repr

/-- Mirrors `Message` (models.go): payload, attribute map, broker id, publish time.
Identifiers and times are `Nat` in the embedding. -/
structure Message where
  data : String
  attributes : List (String × String)
  messageID : Nat
  publishTime : Nat
deriving DecidableEq, Repr

/-- Mirrors `PubSubMessage` (models.go): what a publisher supplies. -/
structure PubSubMessage where
  data : String
  attributes : List (String × String)
deriving DecidableEq, Repr

/-- Mirrors `InternalMessage` (models.go): one lease in a subscription's queue. -/
structure InternalMessage where
  message : Message
  ackID : Nat
  ackedAt : Option Nat
  deadlineAt : Nat
deriving DecidableEq, Repr

/-- Mirrors `ReceivedMessage` (models.go): pull result entry. -/
structure ReceivedMessage where
  ackID : Nat
  message : Message
deriving DecidableEq, Repr

/-- Mirrors `Storage` (storage layer): topic registry, subscription registry,
per-subscription lease queues, plus the identifier-generator state. -/
structure Storage where
  topics : List String
  subscriptions : List Subscription
  messages : List (String × List InternalMessage)
  nextID : Nat
deriving DecidableEq, Repr

/-- The error values of the storage layer (`errors.New` values in storage.go,
plus the two further failure kinds named by the spec). -/
inductive PubSubError where
  | topicNotFound
  | topicAlreadyExists
  | subscriptionNotFound
  | subscriptionAlreadyExists
  /-- `fmt.Errorf("no messages for subscription")` in `Acknowledge` (MissingQueue). -/
  | noMessagesForSubscription
  /-- InvalidLeaseToken of spec section 7, for modify-deadline. -/
  | invalidLeaseToken
deriving DecidableEq, Repr

/-- Membership in the topic registry (`s.topics[name]` key test). -/
def memS (n : String) : List String → Bool
  | [] => false
  | x :: rest => if x = n then true else memS n rest

/-- Go `delete(map, n)` on the topic registry. -/
def removeS (n : String) : List String → List String
  | [] => []
  | x :: rest => if x = n then removeS n rest else x :: removeS n rest

/-- `s.subscriptions[name]` lookup. -/
def findSub (n : String) : List Subscription → Option Subscription
  | [] => none
  | sub :: rest => if sub.name = n then some sub else findSub n rest

/-- Go `delete(map, n)` on the subscription registry. -/
def removeSub (n : String) : List Subscription → List Subscription
  | [] => []
  | sub :: rest => if sub.name = n then removeSub n rest else sub :: removeSub n rest

/-- `s.messages[name]` lookup (key may be absent). -/
def lookupQ (n : String) : List (String × List InternalMessage) → Option (List InternalMessage)
  | [] => none
  | (k, v) :: rest => if k = n then some v else lookupQ n rest

/-- Go map assignment `s.messages[n] = q` (upsert). -/
def setQ (n : String) (q : List InternalMessage) :
    List (String × List InternalMessage) → List (String × List InternalMessage)
  | [] => [(n, q)]
  | (k, v) :: rest => if k = n then (n, q) :: rest else (k, v) :: setQ n q rest

/-- Go `delete(s.messages, n)`. -/
def removeQ (n : String) :
    List (String × List InternalMessage) → List (String × List InternalMessage)
  | [] => []
  | (k, v) :: rest => if k = n then removeQ n rest else (k, v) :: removeQ n rest

/-- The freshly created storage (`NewStorage`). -/
def newStorage : Storage := ⟨[], [], [], 0⟩

/-- Mirrors `Storage.CreateTopic`: AlreadyExists on name collision, else register. -/
def Storage.createTopic (s : Storage) (name : String) : Except PubSubError Storage :=
  if memS name s.topics then .error .topicAlreadyExists
  else .ok { s with topics := s.topics ++ [name] }

/-- Mirrors `Storage.GetTopic`. -/
def Storage.getTopic (s : Storage) (name : String) : Except PubSubError String :=
  if memS name s.topics then .ok name else .error .topicNotFound

/-- Mirrors `Storage.DeleteTopic`: removes only the topic registry entry. -/
def Storage.deleteTopic (s : Storage) (name : String) : Except PubSubError Storage :=
  if memS name s.topics then .ok { s with topics := removeS name s.topics }
  else .error .topicNotFound

/-- Mirrors `Storage.CreateSubscription`.  Note the source order of checks:
the subscription-name collision is tested BEFORE the topic's existence. -/
def Storage.createSubscription (s : Storage) (name topicName : String) :
    Except PubSubError Storage :=
  if (findSub name s.subscriptions).isSome then .error .subscriptionAlreadyExists
  else if memS topicName s.topics then
    .ok { s with subscriptions := s.subscriptions ++ [⟨name, topicName⟩],
                 messages := setQ name [] s.messages }
  else .error .topicNotFound

/-- Mirrors `Storage.GetSubscription`. -/
def Storage.getSubscription (s : Storage) (name : String) : Except PubSubError Subscription :=
  match findSub name s.subscriptions with
  | some sub => .ok sub
  | none => .error .subscriptionNotFound

/-- Mirrors `Storage.DeleteSubscription`: removes the registry entry and the queue. -/
def Storage.deleteSubscription (s : Storage) (name : String) : Except PubSubError Storage :=
  if (findSub name s.subscriptions).isSome then
    .ok { s with subscriptions := removeSub name s.subscriptions,
                 messages := removeQ name s.messages }
  else .error .subscriptionNotFound

/-- `[start, start+1, ..., start+n-1]`: the identifiers handed out by `n`
consecutive calls of the uuid generator, starting from counter `start`. -/
def idRange (start : Nat) : Nat → List Nat
  | 0 => []
  | n + 1 => start :: idRange (start + 1) n

/-- The inner loop of `Storage.Publish` for one subscription: one new lease per
batch message, in batch order, unacknowledged, with `DeadlineAt = time.Time{}`
(embedded as deadline `0`, "always in the past"), message identifier taken from
the pre-generated list and a fresh lease token from the counter. -/
def mkLeases (now : Nat) (tok : Nat) : List PubSubMessage → List Nat → List InternalMessage
  | pm :: pms, i :: ids =>
    ⟨⟨pm.data, pm.attributes, i, now⟩, tok, none, 0⟩ :: mkLeases now (tok + 1) pms ids
  | _, _ => []

/-- The fan-out loop of `Storage.Publish`: for every subscription bound to the
topic, append the batch's leases at the tail of its queue (Go
`s.messages[sub.Name] = append(s.messages[sub.Name], ...)`, which creates the
key when absent), threading the token counter. -/
def publishFan (topicName : String) (msgs : List PubSubMessage) (msgIDs : List Nat) (now : Nat) :
    List Subscription → List (String × List InternalMessage) → Nat →
    List (String × List InternalMessage) × Nat
  | [], m, tok => (m, tok)
  | sub :: rest, m, tok =>
    if sub.topic = topicName then
      publishFan topicName msgs msgIDs now rest
        (setQ sub.name ((lookupQ sub.name m).getD [] ++ mkLeases now tok msgs msgIDs) m)
        (tok + msgs.length)
    else publishFan topicName msgs msgIDs now rest m tok

/-- Mirrors `Storage.Publish`: TopicNotFound if unregistered; otherwise generate
one message identifier per batch message, then fan the batch out to every bound
subscription.  `now` is the injected clock reading. -/
def Storage.publish (s : Storage) (topicName : String) (msgs : List PubSubMessage) (now : Nat) :
    Except PubSubError (List Nat × Storage) :=
  if memS topicName s.topics then
    let msgIDs := idRange s.nextID msgs.length
    let fanned := publishFan topicName msgs msgIDs now
        s.subscriptions s.messages (s.nextID + msgs.length)
    .ok (msgIDs, { s with messages := fanned.1, nextID := fanned.2 })
  else .error .topicNotFound

/-- The visibility test of `Storage.Pull`:
`msg.AckedAt == nil && msg.DeadlineAt.Before(now)` — note the STRICT `Before`. -/
def visible (now : Nat) (msg : InternalMessage) : Bool :=
  msg.ackedAt.isNone && decide (msg.deadlineAt < now)

/-- The scan loop of `Storage.Pull`: walk the queue in stored order, stop once
`cnt` (messages selected so far) reaches `maxM`, select visible leases and
advance each selected lease's deadline to `now + dur` (`dur` embeds the lease
duration constant, `10s` in production and `50ms` under `testing.Testing()`).
Returns the selected entries and the updated queue. -/
def pullLoop (now dur : Nat) (maxM : Int) (cnt : Nat) :
    List InternalMessage → List ReceivedMessage × List InternalMessage
  | [] => ([], [])
  | msg :: rest =>
    if (cnt : Int) ≥ maxM then ([], msg :: rest)
    else if visible now msg then
      let next := pullLoop now dur maxM (cnt + 1) rest
      (⟨msg.ackID, msg.message⟩ :: next.1, { msg with deadlineAt := now + dur } :: next.2)
    else
      let next := pullLoop now dur maxM cnt rest
      (next.1, msg :: next.2)

/-- Mirrors `Storage.Pull`.  The outcome layers are:
`none` models the Go runtime panic raised by
`make([]ReceivedMessage, 0, maxMessages)` when `maxMessages` is negative
(reached only after the subscription check succeeds and the queue record is
found); `some` carries the `(value, error)` result of the Go method. -/
def Storage.pull (s : Storage) (n : String) (maxM : Int) (now dur : Nat) :
    Option (Except PubSubError (List ReceivedMessage × Storage)) :=
  if (findSub n s.subscriptions).isSome then
    match lookupQ n s.messages with
    | none => some (.ok ([], s))
    | some q =>
      if maxM < 0 then none
      else
        let res := pullLoop now dur maxM 0 q
        some (.ok (res.1, { s with messages := setQ n res.2 s.messages }))
  else some (.error .subscriptionNotFound)

/-- The marking/pruning pass of `Storage.Acknowledge`: record an acknowledgement
timestamp on every lease whose token is in the supplied list, then keep only the
leases with no acknowledgement timestamp. -/
def ackMark (tokens : List Nat) (now : Nat) : List InternalMessage → List InternalMessage
  | [] => []
  | msg :: rest =>
    let msg' := if tokens.contains msg.ackID then { msg with ackedAt := some now } else msg
    if msg'.ackedAt = none then msg' :: ackMark tokens now rest else ackMark tokens now rest

/-- Mirrors `Storage.Acknowledge`: SubscriptionNotFound if unregistered; the
MissingQueue error (`"no messages for subscription"`) if the queue record is
absent; otherwise mark and prune matched leases, ignoring unmatched tokens. -/
def Storage.acknowledge (s : Storage) (n : String) (tokens : List Nat) (now : Nat) :
    Except PubSubError Storage :=
  if (findSub n s.subscriptions).isSome then
    match lookupQ n s.messages with
    | none => .error .noMessagesForSubscription
    | some q => .ok { s with messages := setQ n (ackMark tokens now q) s.messages }
  else .error .subscriptionNotFound

/-- Does some currently pending (unacknowledged) lease in `q` carry token `tok`? -/
def hasPending (q : List InternalMessage) (tok : Nat) : Bool :=
  q.any fun m => decide (m.ackID = tok) && m.ackedAt.isNone

/-- Set the deadline of every lease whose token is in `tokens` to `d`. -/
def modifyQ (tokens : List Nat) (d : Nat) : List InternalMessage → List InternalMessage
  | [] => []
  | msg :: rest =>
    (if tokens.contains msg.ackID then { msg with deadlineAt := d } else msg)
      :: modifyQ tokens d rest

/-- Modelled from the spec: `Storage.ModifyAckDeadline` is absent from the
source files (only its tests and HTTP caller reference it).  Spec section 4.2:
fails with SubscriptionNotFound if the subscription is unregistered; fails as a
whole with InvalidLeaseToken — modifying nothing — if any supplied token has no
matching pending (unacknowledged) lease; otherwise sets each addressed lease's
deadline to `now + extensionSeconds` (which is `now` itself when
`extensionSeconds = 0`, the NACK idiom). -/
def Storage.modifyAckDeadline (s : Storage) (n : String) (tokens : List Nat)
    (ext : Nat) (now : Nat) : Except PubSubError Storage :=
  if (findSub n s.subscriptions).isSome then
    let q := (lookupQ n s.messages).getD []
    if tokens.all (hasPending q) then
      .ok { s with messages := setQ n (modifyQ tokens (now + ext) q) s.messages }
    else .error .invalidLeaseToken
  else .error .subscriptionNotFound

deriving instance DecidableEq for Except

/-- The pull result entry built from a selected lease. -/
def toRM (m : InternalMessage) : ReceivedMessage := ⟨m.ackID, m.message⟩

/-- Specification form of the state effect of the `Pull` scan loop: walk the
queue in stored order and advance the deadline of the first `k` visible leases
to `now + dur`, leaving every other lease untouched. -/
def grantK (now dur : Nat) : Nat → List InternalMessage → List InternalMessage
  | _, [] => []
  | 0, q => q
  | k + 1, msg :: rest =>
    if visible now msg then { msg with deadlineAt := now + dur } :: grantK now dur k rest
    else msg :: grantK now dur (k + 1) rest

/-- The state after one further `Pull` on subscription `n` with parameters
`(maxMessages, now)`; a failing or panicking pull leaves the state unchanged. -/
def pullStep (n : String) (dur : Nat) (s : Storage) (p : Int × Nat) : Storage :=
  match s.pull n p.1 p.2 dur with
  | some (.ok r) => r.2
  | _ => s

/-- The lease tokens returned by one further `Pull` on subscription `n`. -/
def pullResTokens (n : String) (dur : Nat) (s : Storage) (p : Int × Nat) : List Nat :=
  match s.pull n p.1 p.2 dur with
  | some (.ok r) => r.1.map ReceivedMessage.ackID
  | _ => []

/-- All lease tokens returned across a sequence of `Pull` calls on
subscription `n`, executed left to right. -/
def pullSeqTokens (n : String) (dur : Nat) (s : Storage) : List (Int × Nat) → List Nat
  | [] => []
  | p :: ps => pullResTokens n dur s p ++ pullSeqTokens n dur (pullStep n dur s p) ps

/-- How many subscriptions bound to topic `t` occur strictly before the first
subscription named `nm` in the registry list (used to locate the token-counter
position of a fan-out target inside `publishFan`). -/
def boundBefore (t nm : String) : List Subscription → Nat
  | [] => 0
  | sub :: rest =>
    if sub.name = nm then 0
    else (if sub.topic = t then 1 else 0) + boundBefore t nm rest

/-- Storage states reachable from `NewStorage` by the engine's mutating
operations (get/list operations return no new state and are omitted). -/
inductive Reachable : Storage → Prop where
  | new : Reachable newStorage
  | createTopic {s s' : Storage} {nm : String} :
      Reachable s → s.createTopic nm = .ok s' → Reachable s'
  | deleteTopic {s s' : Storage} {nm : String} :
      Reachable s → s.deleteTopic nm = .ok s' → Reachable s'
  | createSubscription {s s' : Storage} {nm tn : String} :
      Reachable s → s.createSubscription nm tn = .ok s' → Reachable s'
  | deleteSubscription {s s' : Storage} {nm : String} :
      Reachable s → s.deleteSubscription nm = .ok s' → Reachable s'
  | publish {s s' : Storage} {tn : String} {msgs : List PubSubMessage} {now : Nat}
      {ids : List Nat} :
      Reachable s → s.publish tn msgs now = .ok (ids, s') → Reachable s'
  | pull {s s' : Storage} {nm : String} {maxM : Int} {now dur : Nat}
      {out : List ReceivedMessage} :
      Reachable s → s.pull nm maxM now dur = some (.ok (out, s')) → Reachable s'
  | acknowledge {s s' : Storage} {nm : String} {toks : List Nat} {now : Nat} :
      Reachable s → s.acknowledge nm toks now = .ok s' → Reachable s'

/-- A concrete lease used by the witnesses: unacknowledged, deadline `5`. -/
def exLease : InternalMessage := ⟨⟨"d", [], 1, 0⟩, 7, none, 5⟩

/-- A second concrete lease: unacknowledged, deadline `5`, token `8`. -/
def exLease2 : InternalMessage := ⟨⟨"e", [], 2, 0⟩, 8, none, 5⟩

/-- A concrete storage: topic `t1`, subscription `s1` bound to `t1`, whose
queue holds `exLease`. -/
def exS : Storage := ⟨["t1"], [⟨"s1", "t1"⟩], [("s1", [exLease])], 10⟩

/-- A concrete storage with a two-lease queue on `s1`. -/
def exS2 : Storage := ⟨["t1"], [⟨"s1", "t1"⟩], [("s1", [exLease, exLease2])], 10⟩

/-- A concrete storage with two subscriptions bound to `t1` and one orphan
subscription on topic `t2`. -/
def exS3 : Storage :=
  ⟨["t1", "t2"], [⟨"s1", "t1"⟩, ⟨"s2", "t2"⟩, ⟨"s3", "t1"⟩],
   [("s1", []), ("s2", []), ("s3", [])], 10⟩

/-- A concrete storage produced by `CreateTopic "t1"` then
`CreateSubscription "s1" "t1"` from `NewStorage` (used to witness the
reachability invariant). -/
def exR : Storage := ⟨["t1"], [⟨"s1", "t1"⟩], [("s1", [])], 0⟩

/-- Invariant used to track a granted lease: every lease carrying token `tok`
in subscription `n`'s queue (when the queue record exists) has a deadline no
earlier than `D`. -/
def tokLate (n : String) (tok D : Nat) (s : Storage) : Prop :=
  ∀ q, lookupQ n s.messages = some q → ∀ m ∈ q, m.ackID = tok → D ≤ m.deadlineAt

/-! ## Basic lemmas on the embedded map operations -/

theorem lookupQ_setQ_self (n : String) (q : List InternalMessage)
    (m : List (String × List InternalMessage)) : lookupQ n (setQ n q m) = some q := by
  induction m with
  | nil => simp [setQ, lookupQ]
  | cons kv rest ih =>
    obtain ⟨k, v⟩ := kv
    by_cases h : k = n <;> simp [setQ, lookupQ, h, ih]

theorem lookupQ_setQ_ne (k n : String) (q : List InternalMessage)
    (m : List (String × List InternalMessage)) (h : k ≠ n) :
    lookupQ k (setQ n q m) = lookupQ k m := by
  have h' : ¬ n = k := fun hh => h hh.symm
  induction m with
  | nil => simp [setQ, lookupQ, h']
  | cons kv rest ih =>
    obtain ⟨k', v⟩ := kv
    by_cases h1 : k' = n
    · subst h1
      simp [setQ, lookupQ, h']
    · by_cases h2 : k' = k
      · subst h2; simp [setQ, lookupQ, h, h1]
      · simp [setQ, lookupQ, h1, h2, ih]

theorem setQ_self (n : String) (q : List InternalMessage)
    (m : List (String × List InternalMessage)) (h : lookupQ n m = some q) :
    setQ n q m = m := by
  induction m with
  | nil => simp [lookupQ] at h
  | cons kv rest ih =>
    obtain ⟨k, v⟩ := kv
    by_cases h1 : k = n
    · subst h1
      simp [lookupQ] at h
      simp [setQ, h]
    · simp [lookupQ, h1] at h
      simp [setQ, h1, ih h]

theorem lookupQ_setQ_isSome (k n : String) (q : List InternalMessage)
    (m : List (String × List InternalMessage)) :
    (lookupQ k (setQ n q m)).isSome = true ↔ (k = n ∨ (lookupQ k m).isSome = true) := by
  by_cases h : k = n
  · subst h; simp [lookupQ_setQ_self]
  · simp [lookupQ_setQ_ne _ _ _ _ h, h]

theorem lookupQ_removeQ (k n : String) (m : List (String × List InternalMessage)) :
    lookupQ k (removeQ n m) = if k = n then none else lookupQ k m := by
  induction m with
  | nil => simp [removeQ, lookupQ]
  | cons kv rest ih =>
    obtain ⟨k', v⟩ := kv
    by_cases h1 : k' = n
    · subst h1
      by_cases h2 : k' = k
      · subst h2; simp [removeQ, lookupQ, ih]
      · have h2s : ¬ k = k' := fun hh => h2 hh.symm
        simp [removeQ, lookupQ, h2, h2s, ih]
    · by_cases h2 : k' = k
      · subst h2
        simp [removeQ, lookupQ, h1]
      · simp [removeQ, lookupQ, h1, h2, ih]

theorem memS_removeS (k n : String) (l : List String) :
    memS k (removeS n l) = if k = n then false else memS k l := by
  induction l with
  | nil => simp [removeS, memS]
  | cons x rest ih =>
    by_cases h1 : x = n
    · subst h1
      by_cases h2 : x = k
      · subst h2; simp [removeS, memS, ih]
      · have h2s : ¬ k = x := fun hh => h2 hh.symm
        simp [removeS, memS, h2, h2s, ih]
    · by_cases h2 : x = k
      · subst h2
        simp [removeS, memS, h1]
      · simp [removeS, memS, h1, h2, ih]

theorem findSub_removeSub (k n : String) (l : List Subscription) :
    findSub k (removeSub n l) = if k = n then none else findSub k l := by
  induction l with
  | nil => simp [removeSub, findSub]
  | cons sub rest ih =>
    by_cases h1 : sub.name = n
    · by_cases h2 : sub.name = k
      · have hkn : k = n := h2.symm.trans h1
        subst hkn
        simp [removeSub, h1, ih]
      · have hnk : ¬ n = k := fun hh => h2 (h1.trans hh)
        simp [removeSub, findSub, h1, h2, hnk, ih]
    · by_cases h2 : sub.name = k
      · have hkn : ¬ k = n := fun hh => h1 (h2.trans hh)
        simp [removeSub, findSub, h1, h2, hkn]
      · simp [removeSub, findSub, h1, h2, ih]

theorem findSub_append_isSome (n : String) (l : List Subscription) (sub : Subscription) :
    (findSub n (l ++ [sub])).isSome = true ↔
      ((findSub n l).isSome = true ∨ sub.name = n) := by
  induction l with
  | nil => by_cases h : sub.name = n <;> simp [findSub, h]
  | cons s' rest ih => by_cases h : s'.name = n <;> simp [findSub, h, ih]

/-! ## The `Pull` scan loop -/

theorem pullLoop_eq (now dur : Nat) (maxM : Int) :
    ∀ (q : List InternalMessage) (cnt : Nat),
      pullLoop now dur maxM cnt q =
        (((q.filter (visible now)).take (maxM.toNat - cnt)).map toRM,
         grantK now dur (maxM.toNat - cnt) q) := by
  intro q
  induction q with
  | nil => intro cnt; simp [pullLoop, grantK]
  | cons msg rest ih =>
    intro cnt
    by_cases hb : (cnt : Int) ≥ maxM
    · have h0 : maxM.toNat - cnt = 0 := by
        have : maxM.toNat ≤ cnt := Int.toNat_le.mpr hb
        omega
      simp [pullLoop, hb, h0, grantK]
    · have hlt : cnt < maxM.toNat := by
        have h1 : (cnt : Int) < maxM := lt_of_not_ge hb
        omega
      obtain ⟨r, hr⟩ : ∃ r, maxM.toNat - cnt = r + 1 := ⟨maxM.toNat - cnt - 1, by omega⟩
      have hr' : maxM.toNat - (cnt + 1) = r := by omega
      by_cases hv : visible now msg
      · simp [pullLoop, hb, hv, ih (cnt + 1), hr, hr', grantK, toRM]
      · simp [pullLoop, hb, hv, ih cnt, hr, grantK]

theorem grantK_filter (now dur : Nat) :
    ∀ (k : Nat) (q : List InternalMessage),
      (grantK now dur k q).filter (visible now) = (q.filter (visible now)).drop k := by
  intro k q
  induction q generalizing k with
  | nil => simp [grantK]
  | cons msg rest ih =>
    match k with
    | 0 => simp [grantK]
    | k + 1 =>
      by_cases hv : visible now msg
      · have hnv : visible now { msg with deadlineAt := now + dur } = false := by
          simp [visible]
        simp [grantK, hv, hnv, ih k]
      · simp [grantK, hv, ih (k + 1)]

theorem grantK_map_ackID (now dur : Nat) :
    ∀ (k : Nat) (q : List InternalMessage),
      (grantK now dur k q).map InternalMessage.ackID = q.map InternalMessage.ackID := by
  intro k q
  induction q generalizing k with
  | nil => simp [grantK]
  | cons msg rest ih =>
    match k with
    | 0 => simp [grantK]
    | k + 1 =>
      by_cases hv : visible now msg <;> simp [grantK, hv, ih]

theorem grantK_eq_map (now dur : Nat) :
    ∀ (q : List InternalMessage) (k : Nat) (sel : List Nat),
      (q.map InternalMessage.ackID).Nodup →
      sel = ((q.filter (visible now)).take k).map InternalMessage.ackID →
      grantK now dur k q =
        q.map (fun m =>
          if sel.contains m.ackID then { m with deadlineAt := now + dur } else m) := by
  intro q
  induction q with
  | nil => intro k sel _ _; simp [grantK]
  | cons msg rest ih =>
    intro k sel hnd hsel
    have hnd' : (rest.map InternalMessage.ackID).Nodup := by
      simp only [List.map_cons, List.nodup_cons] at hnd
      exact hnd.2
    have hnotin : msg.ackID ∉ rest.map InternalMessage.ackID := by
      simp only [List.map_cons, List.nodup_cons] at hnd
      exact hnd.1
    match k with
    | 0 =>
      subst hsel
      simp [grantK]
    | k + 1 =>
      by_cases hv : visible now msg
      · have hsel' : sel = msg.ackID ::
            ((rest.filter (visible now)).take k).map InternalMessage.ackID := by
          rw [hsel]; simp [hv]
        have hrest : rest.map (fun m =>
              if sel.contains m.ackID then { m with deadlineAt := now + dur } else m) =
            rest.map (fun m =>
              if (((rest.filter (visible now)).take k).map InternalMessage.ackID).contains
                  m.ackID then { m with deadlineAt := now + dur } else m) := by
          apply List.map_congr_left
          intro m hm
          have hne : ¬ m.ackID = msg.ackID := by
            intro hh
            exact hnotin (hh ▸ List.mem_map.mpr ⟨m, hm, rfl⟩)
          rw [hsel']
          simp [List.contains_cons, hne]
        have hheadm : msg.ackID ∈ sel := by
          rw [hsel']
          exact List.mem_cons_self _ _
        rw [List.map_cons, hrest, ← ih k _ hnd' rfl]
        simp [grantK, hv, hheadm]
      · have hsel' : sel = ((rest.filter (visible now)).take (k + 1)).map
            InternalMessage.ackID := by
          rw [hsel]; simp [hv]
        have hheadm : msg.ackID ∉ sel := by
          rw [hsel']
          intro hc
          obtain ⟨m, hm, hmeq⟩ := List.mem_map.mp hc
          exact hnotin (List.mem_map.mpr
            ⟨m, List.mem_of_mem_filter (List.mem_of_mem_take hm), hmeq⟩)
        rw [List.map_cons, ← ih (k + 1) _ hnd' hsel']
        simp [grantK, hv, hheadm]

theorem pull_ok (s : Storage) (n : String) (q : List InternalMessage) (maxM : Int)
    (now dur : Nat) (hs : (findSub n s.subscriptions).isSome = true)
    (hq : lookupQ n s.messages = some q) (hM : 0 ≤ maxM) :
    s.pull n maxM now dur =
      some (.ok (((q.filter (visible now)).take maxM.toNat).map toRM,
        { s with messages := setQ n (grantK now dur maxM.toNat q) s.messages })) := by
  have hneg : ¬ maxM < 0 := not_lt.mpr hM
  simp [Storage.pull, hs, hq, hneg, pullLoop_eq]

theorem pull_not_registered (s : Storage) (n : String) (maxM : Int) (now dur : Nat)
    (hs : findSub n s.subscriptions = none) :
    s.pull n maxM now dur = some (.error .subscriptionNotFound) := by
  simp [Storage.pull, hs]

theorem pull_no_queue (s : Storage) (n : String) (maxM : Int) (now dur : Nat)
    (hs : (findSub n s.subscriptions).isSome = true)
    (hq : lookupQ n s.messages = none) :
    s.pull n maxM now dur = some (.ok ([], s)) := by
  simp [Storage.pull, hs, hq]

/-- C1 (amended): for a registered subscription with queue `q`, `Pull` at time
`now` selects, in stored queue order and up to the `maxMessages` cap, exactly
the leases that have no acknowledgement timestamp and whose deadline is
STRICTLY BEFORE `now`; a lease whose deadline is exactly equal to `now` is NOT
visible for pull (the source tests `msg.DeadlineAt.Before(now)`). -/
theorem spec_C1 (s : Storage) (n : String) (q : List InternalMessage) (maxM : Int)
    (now dur : Nat) (hs : (findSub n s.subscriptions).isSome = true)
    (hq : lookupQ n s.messages = some q) (hM : 0 ≤ maxM) :
    (∀ m : InternalMessage, visible now m = true ↔ m.ackedAt = none ∧ m.deadlineAt < now) ∧
    (∀ m : InternalMessage, m.deadlineAt = now → visible now m = false) ∧
    s.pull n maxM now dur =
      some (.ok (((q.filter (visible now)).take maxM.toNat).map toRM,
        { s with messages := setQ n (grantK now dur maxM.toNat q) s.messages })) := by
  refine ⟨?_, ?_, pull_ok s n q maxM now dur hs hq hM⟩
  · intro m
    simp [visible, Option.isNone_iff_eq_none]
  · intro m h
    simp [visible, h]

/-- C1 counterexample: the lease `exLease` is unacknowledged with deadline `5`,
sits in the queue of the registered subscription `s1`, yet a `Pull` at the
current time `now = 5` (equal to the deadline) returns nothing — refuting
"a lease whose deadline is exactly equal to the current time is visible". -/
theorem spec_C1_cex :
    exLease.ackedAt = none ∧ exLease.deadlineAt = 5 ∧
    (findSub "s1" exS.subscriptions).isSome = true ∧
    lookupQ "s1" exS.messages = some [exLease] ∧
    exS.pull "s1" 1 5 10 = some (.ok ([], exS)) := by
  decide

/-- C1 witness: at `now = 6` (strictly after the deadline `5`) the same lease
is selected; the theorem instantiated at the concrete storage `exS`. -/
theorem spec_C1_witness :
    exS.pull "s1" 1 6 10 =
      some (.ok ((([exLease].filter (visible 6)).take (1 : Int).toNat).map toRM,
        { exS with messages := setQ "s1" (grantK 6 10 (1 : Int).toNat [exLease]) exS.messages })) :=
  (spec_C1 exS "s1" [exLease] 1 6 10 (by decide) (by decide) (by decide)).2.2

/-- C10 (amended): for `maxMessages ≥ 0` a `Pull` on a registered subscription
completes and returns at most `max maxMessages 0` messages (none at all when
`maxMessages = 0`); but for `maxMessages < 0`, when the queue record exists the
engine panics (Go `make([]ReceivedMessage, 0, maxMessages)` with a negative
capacity), so the engine relies on the caller's `≤ 0 → 1` normalization
instead of treating every non-positive cap itself. -/
theorem spec_C10 (s : Storage) (n : String) (maxM : Int) (now dur : Nat)
    (hs : (findSub n s.subscriptions).isSome = true) (hM : 0 ≤ maxM) :
    (∃ out s', s.pull n maxM now dur = some (.ok (out, s')) ∧
      (out.length : Int) ≤ max maxM 0 ∧ out.length ≤ maxM.toNat ∧
      (maxM = 0 → out = [])) ∧
    (∀ q maxM', lookupQ n s.messages = some q → maxM' < 0 →
      s.pull n maxM' now dur = none) := by
  constructor
  · cases hlq : lookupQ n s.messages with
    | none =>
      refine ⟨[], s, pull_no_queue s n maxM now dur hs hlq, ?_, ?_, fun _ => rfl⟩
      · simp
      · simp
    | some q =>
      refine ⟨((q.filter (visible now)).take maxM.toNat).map toRM,
        { s with messages := setQ n (grantK now dur maxM.toNat q) s.messages },
        pull_ok s n q maxM now dur hs hlq hM, ?_, ?_, ?_⟩
      · have h1 : (((q.filter (visible now)).take maxM.toNat).map toRM).length ≤ maxM.toNat := by
          simp [List.length_take]
        have h2 : (maxM.toNat : Int) = maxM := Int.toNat_of_nonneg hM
        omega
      · simp [List.length_take]
      · intro h0
        subst h0
        simp
  · intro q maxM' hq hneg
    simp [Storage.pull, hs, hq, hneg]

/-- C10 counterexample: the subscription `s1` is registered and its queue
record exists, yet `Pull` with `maxMessages = -1` aborts (the negative-capacity
`make` panic), refuting "Pull executes to completion without aborting" for
every `maxMessages ≤ 0`. -/
theorem spec_C10_cex :
    (findSub "s1" exS.subscriptions).isSome = true ∧
    lookupQ "s1" exS.messages = some [exLease] ∧
    exS.pull "s1" (-1) 5 10 = none := by
  decide

/-- C10 witness: the amended theorem's panic half instantiated at `exS` with
`maxMessages = -2`. -/
theorem spec_C10_witness : exS.pull "s1" (-2) 5 10 = none :=
  (spec_C10 exS "s1" 0 5 10 (by decide) (by decide)).2 [exLease] (-2) (by decide) (by decide)

/-- C7 (amended): in `CreateSubscription` the subscription-name collision check
comes FIRST: if the name is already registered the call fails with
AlreadyExists regardless of whether the topic exists; only for an unregistered
name does a missing topic produce TopicNotFound; otherwise the subscription is
registered, bound to the topic, with an empty lease queue. -/
theorem spec_C7 (s : Storage) (nm tn : String) :
    ((findSub nm s.subscriptions).isSome = true →
      s.createSubscription nm tn = .error .subscriptionAlreadyExists) ∧
    (findSub nm s.subscriptions = none → memS tn s.topics = false →
      s.createSubscription nm tn = .error .topicNotFound) ∧
    (findSub nm s.subscriptions = none → memS tn s.topics = true →
      s.createSubscription nm tn = .ok
        { s with subscriptions := s.subscriptions ++ [⟨nm, tn⟩],
                 messages := setQ nm [] s.messages } ∧
      lookupQ nm (setQ nm [] s.messages) = some [] ∧
      (findSub nm (s.subscriptions ++ [⟨nm, tn⟩])).isSome = true) := by
  refine ⟨?_, ?_, ?_⟩
  · intro hs
    simp [Storage.createSubscription, hs]
  · intro hs ht
    simp [Storage.createSubscription, hs, ht]
  · intro hs ht
    refine ⟨by simp [Storage.createSubscription, hs, ht], lookupQ_setQ_self nm [] s.messages, ?_⟩
    rw [findSub_append_isSome]
    right
    rfl

/-- C7 counterexample: in `exS` the subscription name `s1` is already
registered and the topic `t2` is NOT registered; the claim demands
TopicNotFound in this state, but the call fails with AlreadyExists. -/
theorem spec_C7_cex :
    (findSub "s1" exS.subscriptions).isSome = true ∧
    memS "t2" exS.topics = false ∧
    exS.createSubscription "s1" "t2" = .error .subscriptionAlreadyExists := by
  decide

/-- C7 witness: the amended theorem's success branch instantiated at `exS`
with the fresh name `s4` and the registered topic `t1`. -/
theorem spec_C7_witness :
    exS.createSubscription "s4" "t1" = .ok
      { exS with subscriptions := exS.subscriptions ++ [⟨"s4", "t1"⟩],
                 messages := setQ "s4" [] exS.messages } ∧
    lookupQ "s4" (setQ "s4" [] exS.messages) = some [] ∧
    (findSub "s4" (exS.subscriptions ++ [⟨"s4", "t1"⟩])).isSome = true :=
  (spec_C7 exS "s4" "t1").2.2 (by decide) (by decide)

theorem pull_topics_indep (s : Storage) (T : List String) (nm : String) (maxM : Int)
    (now dur : Nat) :
    (({ s with topics := T } : Storage).pull nm maxM now dur).map
        (Except.map fun p => (p.1, p.2.messages)) =
      (s.pull nm maxM now dur).map (Except.map fun p => (p.1, p.2.messages)) := by
  unfold Storage.pull
  by_cases hfs : (findSub nm s.subscriptions).isSome = true
  · cases hlq : lookupQ nm s.messages with
    | none => simp [hfs, hlq, Except.map]
    | some q => by_cases hneg : maxM < 0 <;> simp [hfs, hlq, hneg, Except.map]
  · simp [hfs]

theorem ack_topics_indep (s : Storage) (T : List String) (nm : String) (toks : List Nat)
    (now : Nat) :
    (({ s with topics := T } : Storage).acknowledge nm toks now).map Storage.messages =
      (s.acknowledge nm toks now).map Storage.messages := by
  unfold Storage.acknowledge
  by_cases hfs : (findSub nm s.subscriptions).isSome = true
  · cases hlq : lookupQ nm s.messages with
    | none => simp [hfs, hlq]
    | some q => simp [hfs, hlq, Except.map]
  · simp [hfs]

/-- C8: deleting a registered topic removes only its registry entry: the
subscription registry and every lease queue are untouched, a later `Publish`
to the deleted topic fails with TopicNotFound, and `Pull`/`Acknowledge` on the
now-orphaned subscriptions return the same values, errors and queue states as
before the deletion. -/
theorem spec_C8 (s : Storage) (t : String) (ht : memS t s.topics = true) :
    s.deleteTopic t = .ok { s with topics := removeS t s.topics } ∧
    ({ s with topics := removeS t s.topics } : Storage).subscriptions = s.subscriptions ∧
    ({ s with topics := removeS t s.topics } : Storage).messages = s.messages ∧
    (∀ msgs now, ({ s with topics := removeS t s.topics } : Storage).publish t msgs now =
      .error .topicNotFound) ∧
    (∀ nm maxM now dur,
      (({ s with topics := removeS t s.topics } : Storage).pull nm maxM now dur).map
          (Except.map fun p => (p.1, p.2.messages)) =
        (s.pull nm maxM now dur).map (Except.map fun p => (p.1, p.2.messages))) ∧
    (∀ nm toks now,
      (({ s with topics := removeS t s.topics } : Storage).acknowledge nm toks now).map
          Storage.messages =
        (s.acknowledge nm toks now).map Storage.messages) := by
  refine ⟨by simp [Storage.deleteTopic, ht], rfl, rfl, ?_, ?_, ?_⟩
  · intro msgs now
    have hgone : memS t (removeS t s.topics) = false := by simp [memS_removeS]
    simp [Storage.publish, hgone]
  · intro nm maxM now dur
    exact pull_topics_indep s (removeS t s.topics) nm maxM now dur
  · intro nm toks now
    exact ack_topics_indep s (removeS t s.topics) nm toks now

/-- C8 witness: the orphaned subscription `s1` of `exS` pulls the same lease
after `t1` is deleted, and publishing to the deleted `t1` fails. -/
theorem spec_C8_witness :
    exS.deleteTopic "t1" = .ok { exS with topics := removeS "t1" exS.topics } ∧
    ({ exS with topics := removeS "t1" exS.topics } : Storage).publish "t1" [⟨"x", []⟩] 3 =
      .error .topicNotFound ∧
    (({ exS with topics := removeS "t1" exS.topics } : Storage).pull "s1" 1 6 10).map
        (Except.map fun p => (p.1, p.2.messages)) =
      (exS.pull "s1" 1 6 10).map (Except.map fun p => (p.1, p.2.messages)) :=
  have h := spec_C8 exS "t1" (by decide)
  ⟨h.1, h.2.2.2.1 [⟨"x", []⟩] 3, h.2.2.2.2.1 "s1" 1 6 10⟩

/-! ## The `Acknowledge` mark-and-prune pass -/

theorem ackMark_filter (toks : List Nat) (now : Nat) :
    ∀ q : List InternalMessage, (∀ m ∈ q, m.ackedAt = none) →
      ackMark toks now q = q.filter fun m => !(toks.contains m.ackID) := by
  intro q hq
  induction q with
  | nil => simp [ackMark]
  | cons msg rest ih =>
    have hmsg : msg.ackedAt = none := hq msg (List.mem_cons_self _ _)
    have hrest := ih fun m hm => hq m (List.mem_cons_of_mem _ hm)
    by_cases hc : msg.ackID ∈ toks
    · simp [ackMark, hc, hrest]
    · simp [ackMark, hc, hmsg, hrest]

theorem mem_ackMark (toks : List Nat) (now : Nat) :
    ∀ (q : List InternalMessage) (m : InternalMessage), m ∈ ackMark toks now q →
      m.ackedAt = none ∧ toks.contains m.ackID = false := by
  intro q
  induction q with
  | nil => intro m hm; simp [ackMark] at hm
  | cons msg rest ih =>
    intro m hm
    by_cases hc : msg.ackID ∈ toks
    · simp [ackMark, hc] at hm
      exact ih m hm
    · by_cases ha : msg.ackedAt = none
      · simp [ackMark, hc, ha] at hm
        rcases hm with hm | hm
        · subst hm
          refine ⟨ha, ?_⟩
          simpa using hc
        · exact ih m hm
      · simp [ackMark, hc, ha] at hm
        exact ih m hm

theorem ackMark_id (toks : List Nat) (now : Nat) :
    ∀ q : List InternalMessage,
      (∀ m ∈ q, m.ackedAt = none ∧ toks.contains m.ackID = false) →
      ackMark toks now q = q := by
  intro q hq
  induction q with
  | nil => simp [ackMark]
  | cons msg rest ih =>
    obtain ⟨ha, hc⟩ := hq msg (List.mem_cons_self _ _)
    have hcm : msg.ackID ∉ toks := by simpa using hc
    have hrest := ih fun m hm => hq m (List.mem_cons_of_mem _ hm)
    simp [ackMark, hcm, ha, hrest]

/-- C4: `Acknowledge` prunes from a registered subscription's queue exactly
the leases whose token is in the supplied list (each surviving lease is kept
unchanged); supplied tokens matching nothing are silently ignored and the call
still succeeds (even changing no state at all); the call fails precisely when
the subscription is unregistered (SubscriptionNotFound) or its queue record is
absent (the MissingQueue error), and a failing call returns only the error, so
no state is changed.  The unacked hypothesis on the queue holds in every
reachable state (the engine prunes leases the moment they are marked). -/
theorem spec_C4 (s : Storage) (n : String) (toks : List Nat) (now : Nat) :
    (findSub n s.subscriptions = none →
      s.acknowledge n toks now = .error .subscriptionNotFound) ∧
    ((findSub n s.subscriptions).isSome = true → lookupQ n s.messages = none →
      s.acknowledge n toks now = .error .noMessagesForSubscription) ∧
    (∀ q, (findSub n s.subscriptions).isSome = true → lookupQ n s.messages = some q →
      (∀ m ∈ q, m.ackedAt = none) →
      s.acknowledge n toks now =
        .ok { s with messages :=
          (setQ n (q.filter fun m => !(toks.contains m.ackID)) s.messages) }) ∧
    (∀ q, (findSub n s.subscriptions).isSome = true → lookupQ n s.messages = some q →
      (∀ m ∈ q, m.ackedAt = none) → (∀ m ∈ q, toks.contains m.ackID = false) →
      s.acknowledge n toks now = .ok s) := by
  refine ⟨?_, ?_, ?_, ?_⟩
  · intro hs
    simp [Storage.acknowledge, hs]
  · intro hs hq
    simp [Storage.acknowledge, hs, hq]
  · intro q hs hq hall
    simp [Storage.acknowledge, hs, hq, ackMark_filter toks now q hall]
  · intro q hs hq hall hnone
    have hfix : q.filter (fun m => !(toks.contains m.ackID)) = q := by
      apply List.filter_eq_self.mpr
      intro m hm
      simpa using hnone m hm
    have h3 : s.acknowledge n toks now =
        .ok { s with messages :=
          (setQ n (q.filter fun m => !(toks.contains m.ackID)) s.messages) } := by
      simp [Storage.acknowledge, hs, hq, ackMark_filter toks now q hall]
    rw [h3, hfix, setQ_self n q s.messages hq]

/-- C4 witness: acknowledging token `7` in the two-lease queue of `exS2`
prunes exactly `exLease` (token `7`) and keeps `exLease2` (token `8`). -/
theorem spec_C4_witness :
    exS2.acknowledge "s1" [7] 99 =
      .ok { exS2 with messages :=
        (setQ "s1" ([exLease, exLease2].filter fun m => !([7].contains m.ackID))
          exS2.messages) } :=
  (spec_C4 exS2 "s1" [7] 99).2.2.1 [exLease, exLease2] (by decide) (by decide) (by decide)

/-- C5: acknowledging the same single token twice in succession (at arbitrary
times) produces the same final state as acknowledging it once, and the second
call succeeds as a no-op rather than failing. -/
theorem spec_C5 (s : Storage) (n : String) (tk : Nat) (now1 now2 : Nat)
    (q : List InternalMessage) (hs : (findSub n s.subscriptions).isSome = true)
    (hq : lookupQ n s.messages = some q) :
    s.acknowledge n [tk] now1 =
      .ok { s with messages := (setQ n (ackMark [tk] now1 q) s.messages) } ∧
    ({ s with messages := setQ n (ackMark [tk] now1 q) s.messages } : Storage).acknowledge
        n [tk] now2 =
      .ok { s with messages := setQ n (ackMark [tk] now1 q) s.messages } := by
  constructor
  · simp [Storage.acknowledge, hs, hq]
  · have hq1 : lookupQ n (setQ n (ackMark [tk] now1 q) s.messages) =
        some (ackMark [tk] now1 q) := lookupQ_setQ_self n _ s.messages
    have hid : ackMark [tk] now2 (ackMark [tk] now1 q) = ackMark [tk] now1 q :=
      ackMark_id [tk] now2 _ fun m hm => mem_ackMark [tk] now1 q m hm
    have hset : setQ n (ackMark [tk] now1 q) (setQ n (ackMark [tk] now1 q) s.messages) =
        setQ n (ackMark [tk] now1 q) s.messages := setQ_self n _ _ hq1
    simp [Storage.acknowledge, hs, hq1, hid, hset]

/-- C5 witness: double-acknowledge of token `7` on `exS2`. -/
theorem spec_C5_witness :
    exS2.acknowledge "s1" [7] 3 =
      .ok { exS2 with messages :=
        (setQ "s1" (ackMark [7] 3 [exLease, exLease2]) exS2.messages) } ∧
    ({ exS2 with messages := setQ "s1" (ackMark [7] 3 [exLease, exLease2]) exS2.messages } :
        Storage).acknowledge "s1" [7] 9 =
      .ok { exS2 with messages :=
        (setQ "s1" (ackMark [7] 3 [exLease, exLease2]) exS2.messages) } :=
  spec_C5 exS2 "s1" 7 3 9 [exLease, exLease2] (by decide) (by decide)

theorem modifyQ_eq_map (toks : List Nat) (d : Nat) :
    ∀ q : List InternalMessage,
      modifyQ toks d q = q.map fun m =>
        if toks.contains m.ackID then { m with deadlineAt := d } else m := by
  intro q
  induction q with
  | nil => simp [modifyQ]
  | cons msg rest ih => simp [modifyQ, ih]

/-- C6 (spec-modelled `ModifyAckDeadline`): on a registered subscription, when
every supplied token matches a pending lease, the call sets each addressed
lease's deadline to `now + extensionSeconds` (which is `now` itself for
`extensionSeconds = 0`, making the lease visible to any strictly later pull —
the NACK idiom; for `extensionSeconds > 0` the new deadline is measured from
the modify call, overriding any previously granted deadline) and leaves every
unaddressed lease unchanged; when any supplied token has no matching pending
(unacknowledged) lease — including tokens of acknowledged or never-existent
leases — the whole call fails with InvalidLeaseToken and no lease is
modified (only the error is returned). -/
theorem spec_C6 (s : Storage) (n : String) (toks : List Nat) (ext now : Nat)
    (q : List InternalMessage) (hs : (findSub n s.subscriptions).isSome = true)
    (hq : lookupQ n s.messages = some q) :
    (toks.all (hasPending q) = true →
      s.modifyAckDeadline n toks ext now =
        .ok { s with messages := (setQ n (modifyQ toks (now + ext) q) s.messages) }) ∧
    (modifyQ toks (now + ext) q = q.map fun m =>
      if toks.contains m.ackID then { m with deadlineAt := now + ext } else m) ∧
    (ext = 0 → now + ext = now) ∧
    (∀ (m : InternalMessage) (t : Nat), m.ackedAt = none → now + ext < t →
      visible t { m with deadlineAt := now + ext } = true) ∧
    (toks.all (hasPending q) = false →
      s.modifyAckDeadline n toks ext now = .error .invalidLeaseToken) ∧
    (∀ tk ∈ toks, (∀ m ∈ q, m.ackID = tk → ¬ m.ackedAt = none) →
      s.modifyAckDeadline n toks ext now = .error .invalidLeaseToken) := by
  have h5 : toks.all (hasPending q) = false →
      s.modifyAckDeadline n toks ext now = .error .invalidLeaseToken := by
    intro hall
    simp [Storage.modifyAckDeadline, hs, hq, hall]
  refine ⟨?_, modifyQ_eq_map toks (now + ext) q, by omega, ?_, h5, ?_⟩
  · intro hall
    simp [Storage.modifyAckDeadline, hs, hq, hall]
  · intro m t ha ht
    simp [visible, ha, ht]
  · intro tk htk hnone
    have hfp : hasPending q tk = false := by
      rw [Bool.eq_false_iff]
      intro hcontra
      obtain ⟨m, hm, hp⟩ := List.any_eq_true.mp hcontra
      simp only [Bool.and_eq_true, decide_eq_true_eq, Option.isNone_iff_eq_none] at hp
      exact hnone m hm hp.1 hp.2
    apply h5
    rw [Bool.eq_false_iff]
    intro hcontra
    have := List.all_eq_true.mp hcontra tk htk
    rw [hfp] at this
    exact Bool.false_ne_true this

/-- C6 witness: extending both pending leases of `exS2` by 4 seconds at
`now = 20` sets both deadlines to 24. -/
theorem spec_C6_witness :
    exS2.modifyAckDeadline "s1" [7, 8] 4 20 =
      .ok { exS2 with messages :=
        (setQ "s1" (modifyQ [7, 8] (20 + 4) [exLease, exLease2]) exS2.messages) } :=
  (spec_C6 exS2 "s1" [7, 8] 4 20 [exLease, exLease2] (by decide) (by decide)).1 (by decide)

/-! ## No redelivery of a granted lease before its deadline -/

theorem grantK_mem_or (now dur : Nat) :
    ∀ (k : Nat) (q : List InternalMessage) (m : InternalMessage),
      m ∈ grantK now dur k q →
      m ∈ q ∨ ∃ m0 ∈ q, visible now m0 = true ∧ m = { m0 with deadlineAt := now + dur } := by
  intro k q
  induction q generalizing k with
  | nil => intro m hm; simp [grantK] at hm
  | cons msg rest ih =>
    intro m hm
    match k with
    | 0 =>
      simp only [grantK] at hm
      exact Or.inl hm
    | k + 1 =>
      by_cases hv : visible now msg
      · simp only [grantK, hv, if_true, List.mem_cons] at hm
        rcases hm with hm | hm
        · exact Or.inr ⟨msg, List.mem_cons_self _ _, hv, hm⟩
        · rcases ih k m hm with h | ⟨m0, hm0, hv0, he⟩
          · exact Or.inl (List.mem_cons_of_mem _ h)
          · exact Or.inr ⟨m0, List.mem_cons_of_mem _ hm0, hv0, he⟩
      · simp only [grantK, hv, Bool.false_eq_true, if_false, List.mem_cons] at hm
        rcases hm with hm | hm
        · exact Or.inl (hm ▸ List.mem_cons_self _ _)
        · rcases ih (k + 1) m hm with h | ⟨m0, hm0, hv0, he⟩
          · exact Or.inl (List.mem_cons_of_mem _ h)
          · exact Or.inr ⟨m0, List.mem_cons_of_mem _ hm0, hv0, he⟩

theorem tokLate_pullStep (n : String) (dur : Nat) (tok D : Nat) (s : Storage)
    (p : Int × Nat) (hD : tokLate n tok D s) (hp : p.2 ≤ D) :
    tokLate n tok D (pullStep n dur s p) ∧ tok ∉ pullResTokens n dur s p := by
  by_cases hfs : (findSub n s.subscriptions).isSome = true
  · cases hlq : lookupQ n s.messages with
    | none =>
      have hpull : s.pull n p.1 p.2 dur = some (.ok ([], s)) :=
        pull_no_queue s n p.1 p.2 dur hfs hlq
      constructor
      · simpa [pullStep, hpull] using hD
      · simp [pullResTokens, hpull]
    | some q =>
      by_cases hneg : p.1 < 0
      · have hpull : s.pull n p.1 p.2 dur = none := by
          simp [Storage.pull, hfs, hlq, hneg]
        constructor
        · simpa [pullStep, hpull] using hD
        · simp [pullResTokens, hpull]
      · have hpull := pull_ok s n q p.1 p.2 dur hfs hlq (not_lt.mp hneg)
        have hnotin : tok ∉ (((q.filter (visible p.2)).take p.1.toNat).map toRM).map
            ReceivedMessage.ackID := by
          intro hc
          simp only [List.map_map, List.mem_map, Function.comp] at hc
          obtain ⟨m, hm, hmid⟩ := hc
          have hmq : m ∈ q :=
            List.mem_of_mem_filter (List.mem_of_mem_take hm)
          have hvm : visible p.2 m = true := List.of_mem_filter (List.mem_of_mem_take hm)
          have hdl : m.deadlineAt < p.2 := by
            simp only [visible, Bool.and_eq_true, decide_eq_true_eq] at hvm
            exact hvm.2
          have hge : D ≤ m.deadlineAt := hD q hlq m hmq (by simpa [toRM] using hmid)
          omega
        constructor
        · intro q'' hq'' m hm hid
          rw [pullStep, hpull] at hq''
          simp only at hq''
          rw [lookupQ_setQ_self] at hq''
          have hq2 : q'' = grantK p.2 dur p.1.toNat q := by
            exact (Option.some.inj hq'').symm
          subst hq2
          rcases grantK_mem_or p.2 dur p.1.toNat q m hm with hmem | ⟨m0, hm0, hv0, he⟩
          · exact hD q hlq m hmem hid
          · have hdl0 : m0.deadlineAt < p.2 := by
              simp only [visible, Bool.and_eq_true, decide_eq_true_eq] at hv0
              exact hv0.2
            have hid0 : m0.ackID = tok := by
              rw [he] at hid
              exact hid
            have hge : D ≤ m0.deadlineAt := hD q hlq m0 hm0 hid0
            omega
        · rw [pullResTokens, hpull]
          exact hnotin
  · have hfs' : findSub n s.subscriptions = none := by
      cases h : findSub n s.subscriptions with
      | none => rfl
      | some v => rw [h] at hfs; simp at hfs
    have hpull := pull_not_registered s n p.1 p.2 dur hfs'
    constructor
    · simpa [pullStep, hpull] using hD
    · simp [pullResTokens, hpull]

theorem tok_not_in_pullSeq (n : String) (dur tok D : Nat) :
    ∀ (ps : List (Int × Nat)) (s : Storage), tokLate n tok D s →
      (∀ p ∈ ps, p.2 ≤ D) → tok ∉ pullSeqTokens n dur s ps := by
  intro ps
  induction ps with
  | nil => intro s _ _; simp [pullSeqTokens]
  | cons p rest ih =>
    intro s hD hps
    obtain ⟨hstep, hres⟩ := tokLate_pullStep n dur tok D s p hD (hps p (List.mem_cons_self _ _))
    simp only [pullSeqTokens, List.mem_append]
    rintro (hc | hc)
    · exact hres hc
    · exact ih (pullStep n dur s p) hstep (fun x hx => hps x (List.mem_cons_of_mem _ hx)) hc

theorem grantK_of_filter_nil (now dur : Nat) :
    ∀ q : List InternalMessage, q.filter (visible now) = [] →
      ∀ k, grantK now dur k q = q := by
  intro q
  induction q with
  | nil => intro _ k; simp [grantK]
  | cons msg rest ih =>
    intro hf k
    have hv : visible now msg = false := by
      by_contra hc
      simp only [Bool.not_eq_false] at hc
      simp [List.filter_cons, hc] at hf
    have hrest : rest.filter (visible now) = [] := by
      simpa [List.filter_cons, hv] using hf
    match k with
    | 0 => simp [grantK]
    | k + 1 => simp [grantK, hv, ih hrest (k + 1)]

/-- C2: on a registered subscription with queue `q` and `maxMessages ≥ 0`
(lease tokens pairwise distinct, as in every reachable state), `Pull` returns
the first `min(#eligible, maxMessages)` eligible leases in stored order;
the state update advances exactly the returned leases' deadlines to
`now + lease duration` and leaves every other lease unchanged; an immediate
second `Pull` at the same time returns the remaining eligible leases; when no
lease is eligible the result is an empty list — not an error — and the state
is unchanged; and a returned (granted) lease's token is not returned by any
later sequence of `Pull` calls performed at times up to its new deadline
(`ModifyAckDeadline`/`Acknowledge` not intervening). -/
theorem spec_C2 (s : Storage) (n : String) (q : List InternalMessage) (maxM : Int)
    (now dur : Nat) (hs : (findSub n s.subscriptions).isSome = true)
    (hq : lookupQ n s.messages = some q) (hM : 0 ≤ maxM)
    (hnd : (q.map InternalMessage.ackID).Nodup) :
    s.pull n maxM now dur =
      some (.ok (((q.filter (visible now)).take maxM.toNat).map toRM,
        { s with messages := (setQ n (grantK now dur maxM.toNat q) s.messages) })) ∧
    grantK now dur maxM.toNat q = q.map (fun m =>
      if (((q.filter (visible now)).take maxM.toNat).map InternalMessage.ackID).contains m.ackID
      then { m with deadlineAt := now + dur } else m) ∧
    (∀ maxM' : Int, 0 ≤ maxM' →
      ({ s with messages := (setQ n (grantK now dur maxM.toNat q) s.messages) } : Storage).pull
          n maxM' now dur =
        some (.ok ((((q.filter (visible now)).drop maxM.toNat).take maxM'.toNat).map toRM,
          { s with messages := (setQ n (grantK now dur maxM'.toNat (grantK now dur maxM.toNat q))
            (setQ n (grantK now dur maxM.toNat q) s.messages)) }))) ∧
    (q.filter (visible now) = [] → s.pull n maxM now dur = some (.ok ([], s))) ∧
    (∀ tok, tok ∈ ((q.filter (visible now)).take maxM.toNat).map InternalMessage.ackID →
      ∀ ps : List (Int × Nat), (∀ p ∈ ps, p.2 ≤ now + dur) →
        tok ∉ pullSeqTokens n dur
          { s with messages := (setQ n (grantK now dur maxM.toNat q) s.messages) } ps) := by
  refine ⟨pull_ok s n q maxM now dur hs hq hM,
    grantK_eq_map now dur q maxM.toNat _ hnd rfl, ?_, ?_, ?_⟩
  · intro maxM' hM'
    have hq2 : lookupQ n (setQ n (grantK now dur maxM.toNat q) s.messages) =
        some (grantK now dur maxM.toNat q) := lookupQ_setQ_self n _ s.messages
    have h := pull_ok { s with messages := (setQ n (grantK now dur maxM.toNat q) s.messages) }
      n (grantK now dur maxM.toNat q) maxM' now dur hs hq2 hM'
    rw [h, grantK_filter]
  · intro hnil
    have h1 := pull_ok s n q maxM now dur hs hq hM
    rw [hnil, grantK_of_filter_nil now dur q hnil maxM.toNat,
      setQ_self n q s.messages hq] at h1
    simpa using h1
  · intro tok htok ps hps
    have hlate : tokLate n tok (now + dur)
        { s with messages := (setQ n (grantK now dur maxM.toNat q) s.messages) } := by
      intro q'' hq'' m hm hid
      simp only [lookupQ_setQ_self] at hq''
      have hq2 : grantK now dur maxM.toNat q = q'' := Option.some.inj hq''
      rw [← hq2] at hm
      rw [grantK_eq_map now dur q maxM.toNat _ hnd rfl] at hm
      obtain ⟨m0, hm0, hfm⟩ := List.mem_map.mp hm
      by_cases hc : m0.ackID ∈
          ((q.filter (visible now)).take maxM.toNat).map InternalMessage.ackID
      · have hcb : (((q.filter (visible now)).take maxM.toNat).map
            InternalMessage.ackID).contains m0.ackID = true := by simpa using hc
        rw [if_pos hcb] at hfm
        rw [← hfm]
      · have hcb : ¬ (((q.filter (visible now)).take maxM.toNat).map
            InternalMessage.ackID).contains m0.ackID = true := by simpa using hc
        rw [if_neg hcb] at hfm
        subst hfm
        rw [← hid] at htok
        exact absurd htok hc
    exact tok_not_in_pullSeq n dur tok (now + dur) ps _ hlate hps

/-- C2 witness: pulling `maxMessages = 1` from the two-eligible-lease queue of
`exS2` at `now = 6` returns the first lease and grants it. -/
theorem spec_C2_witness :
    exS2.pull "s1" 1 6 10 =
      some (.ok ((([exLease, exLease2].filter (visible 6)).take (1 : Int).toNat).map toRM,
        { exS2 with messages :=
          (setQ "s1" (grantK 6 10 (1 : Int).toNat [exLease, exLease2]) exS2.messages) })) :=
  (spec_C2 exS2 "s1" [exLease, exLease2] 1 6 10 (by decide) (by decide) (by decide)
    (by decide)).1

/-! ## Identifier generation and the `Publish` fan-out -/

theorem idRange_length : ∀ (n start : Nat), (idRange start n).length = n := by
  intro n
  induction n with
  | zero => intro start; simp [idRange]
  | succ k ih => intro start; simp [idRange, ih]

theorem mem_idRange : ∀ (n start x : Nat), x ∈ idRange start n ↔ start ≤ x ∧ x < start + n := by
  intro n
  induction n with
  | zero => intro start x; simp [idRange]
  | succ k ih =>
    intro start x
    simp only [idRange, List.mem_cons, ih]
    omega

theorem idRange_nodup : ∀ (n start : Nat), (idRange start n).Nodup := by
  intro n
  induction n with
  | zero => intro start; simp [idRange]
  | succ k ih =>
    intro start
    simp only [idRange, List.nodup_cons]
    refine ⟨?_, ih (start + 1)⟩
    rw [mem_idRange]
    omega

theorem mkLeases_map_ackID (now : Nat) :
    ∀ (msgs : List PubSubMessage) (ids : List Nat) (tok : Nat),
      (mkLeases now tok msgs ids).map InternalMessage.ackID =
        idRange tok (min msgs.length ids.length) := by
  intro msgs
  induction msgs with
  | nil => intro ids tok; simp [mkLeases, idRange]
  | cons pm pms ih =>
    intro ids tok
    match ids with
    | [] => simp [mkLeases, idRange]
    | i :: ids' =>
      have hmin : min (pms.length + 1) (ids'.length + 1) = min pms.length ids'.length + 1 := by
        omega
      simp [mkLeases, List.length_cons, hmin, idRange, ih]

theorem mkLeases_map_msgID (now : Nat) :
    ∀ (msgs : List PubSubMessage) (ids : List Nat) (tok : Nat),
      (mkLeases now tok msgs ids).map (fun m => m.message.messageID) =
        ids.take msgs.length := by
  intro msgs
  induction msgs with
  | nil => intro ids tok; simp [mkLeases]
  | cons pm pms ih =>
    intro ids tok
    match ids with
    | [] => simp [mkLeases]
    | i :: ids' => simp [mkLeases, ih]

theorem mkLeases_map_data (now : Nat) :
    ∀ (msgs : List PubSubMessage) (ids : List Nat) (tok : Nat),
      (mkLeases now tok msgs ids).map (fun m => m.message.data) =
        (msgs.map PubSubMessage.data).take ids.length := by
  intro msgs
  induction msgs with
  | nil => intro ids tok; simp [mkLeases]
  | cons pm pms ih =>
    intro ids tok
    match ids with
    | [] => simp [mkLeases]
    | i :: ids' => simp [mkLeases, ih]

theorem mkLeases_pending (now : Nat) :
    ∀ (msgs : List PubSubMessage) (ids : List Nat) (tok : Nat),
      ∀ m ∈ mkLeases now tok msgs ids, m.ackedAt = none ∧ m.deadlineAt = 0 := by
  intro msgs
  induction msgs with
  | nil => intro ids tok m hm; simp [mkLeases] at hm
  | cons pm pms ih =>
    intro ids tok m hm
    match ids with
    | [] => simp [mkLeases] at hm
    | i :: ids' =>
      simp only [mkLeases, List.mem_cons] at hm
      rcases hm with hm | hm
      · subst hm; exact ⟨rfl, rfl⟩
      · exact ih ids' (tok + 1) m hm

theorem publishFan_lookup_other (t : String) (msgs : List PubSubMessage) (ids : List Nat)
    (now : Nat) :
    ∀ (subs : List Subscription) (m : List (String × List InternalMessage)) (tok : Nat)
      (nm : String), (∀ sub ∈ subs, sub.topic = t → sub.name ≠ nm) →
      lookupQ nm (publishFan t msgs ids now subs m tok).1 = lookupQ nm m := by
  intro subs
  induction subs with
  | nil => intro m tok nm _; simp [publishFan]
  | cons sub rest ih =>
    intro m tok nm hnm
    by_cases htop : sub.topic = t
    · have hne : ¬ nm = sub.name :=
        fun hh => hnm sub (List.mem_cons_self _ _) htop hh.symm
      simp only [publishFan, htop, if_true]
      rw [ih _ _ nm fun s' hs' => hnm s' (List.mem_cons_of_mem _ hs')]
      exact lookupQ_setQ_ne nm sub.name _ m hne
    · simp only [publishFan, htop, if_false]
      exact ih m tok nm fun s' hs' => hnm s' (List.mem_cons_of_mem _ hs')

theorem publishFan_unbound (t : String) (msgs : List PubSubMessage) (ids : List Nat)
    (now : Nat) :
    ∀ (subs : List Subscription) (m : List (String × List InternalMessage)) (tok : Nat),
      (∀ sub ∈ subs, sub.topic ≠ t) → (publishFan t msgs ids now subs m tok).1 = m := by
  intro subs
  induction subs with
  | nil => intro m tok _; simp [publishFan]
  | cons sub rest ih =>
    intro m tok hnb
    have htop : ¬ sub.topic = t := hnb sub (List.mem_cons_self _ _)
    simp only [publishFan, htop, if_false]
    exact ih m tok fun s' hs' => hnb s' (List.mem_cons_of_mem _ hs')

theorem publishFan_lookup_bound (t : String) (msgs : List PubSubMessage) (ids : List Nat)
    (now : Nat) :
    ∀ (subs : List Subscription) (m : List (String × List InternalMessage)) (tok : Nat)
      (sub : Subscription), (subs.map Subscription.name).Nodup → sub ∈ subs →
      sub.topic = t →
      lookupQ sub.name (publishFan t msgs ids now subs m tok).1 =
        some ((lookupQ sub.name m).getD [] ++
          mkLeases now (tok + msgs.length * boundBefore t sub.name subs) msgs ids) := by
  intro subs
  induction subs with
  | nil => intro m tok sub _ hmem; simp at hmem
  | cons head rest ih =>
    intro m tok sub hnd hmem htop
    have hnotin : head.name ∉ rest.map Subscription.name := by
      simp only [List.map_cons, List.nodup_cons] at hnd
      exact hnd.1
    have hnd' : (rest.map Subscription.name).Nodup := by
      simp only [List.map_cons, List.nodup_cons] at hnd
      exact hnd.2
    by_cases hname : head.name = sub.name
    · have hsub : sub = head := by
        rcases List.mem_cons.mp hmem with h | h
        · exact h
        · exact absurd (hname ▸ List.mem_map.mpr ⟨sub, h, rfl⟩) hnotin
      subst hsub
      have htop' : sub.topic = t := htop
      simp only [publishFan, htop', if_true]
      rw [publishFan_lookup_other t msgs ids now rest _ _ sub.name
        (fun s' hs' _ hh => hnotin (hh ▸ List.mem_map.mpr ⟨s', hs', rfl⟩))]
      rw [lookupQ_setQ_self]
      have hbb : boundBefore t sub.name (sub :: rest) = 0 := by
        simp [boundBefore]
      rw [hbb, Nat.mul_zero, Nat.add_zero]
    · have hmem' : sub ∈ rest := by
        rcases List.mem_cons.mp hmem with h | h
        · exact absurd (h ▸ rfl : head.name = sub.name) hname
        · exact h
      by_cases htoph : head.topic = t
      · simp only [publishFan, htoph, if_true]
        rw [ih _ (tok + msgs.length) sub hnd' hmem' htop]
        rw [lookupQ_setQ_ne sub.name head.name _ m fun hh => hname hh.symm]
        have hbb : boundBefore t sub.name (head :: rest) =
            1 + boundBefore t sub.name rest := by
          simp [boundBefore, hname, htoph]
        rw [hbb]
        have harith : tok + msgs.length + msgs.length * boundBefore t sub.name rest =
            tok + msgs.length * (1 + boundBefore t sub.name rest) := by ring
        rw [← harith]
      · simp only [publishFan, htoph, if_false]
        rw [ih m tok sub hnd' hmem' htop]
        have hbb : boundBefore t sub.name (head :: rest) = boundBefore t sub.name rest := by
          simp [boundBefore, hname, htoph]
        rw [hbb]

theorem boundBefore_ne (t : String) :
    ∀ (subs : List Subscription), (subs.map Subscription.name).Nodup →
      ∀ sub1 ∈ subs, ∀ sub2 ∈ subs, sub1.topic = t → sub2.topic = t →
      sub1.name ≠ sub2.name →
      boundBefore t sub1.name subs ≠ boundBefore t sub2.name subs := by
  intro subs
  induction subs with
  | nil => intro _ sub1 h1; simp at h1
  | cons head rest ih =>
    intro hnd sub1 h1 sub2 h2 ht1 ht2 hne
    have hnotin : head.name ∉ rest.map Subscription.name := by
      simp only [List.map_cons, List.nodup_cons] at hnd
      exact hnd.1
    have hnd' : (rest.map Subscription.name).Nodup := by
      simp only [List.map_cons, List.nodup_cons] at hnd
      exact hnd.2
    by_cases hn1 : head.name = sub1.name
    · have hsub1 : sub1 = head := by
        rcases List.mem_cons.mp h1 with h | h
        · exact h
        · exact absurd (hn1 ▸ List.mem_map.mpr ⟨sub1, h, rfl⟩) hnotin
      have hn2 : ¬ head.name = sub2.name := fun hh => hne ((hn1.symm.trans hh))
      have h2' : sub2 ∈ rest := by
        rcases List.mem_cons.mp h2 with h | h
        · exact absurd (h ▸ rfl : head.name = sub2.name) hn2
        · exact h
      have hb1 : boundBefore t sub1.name (head :: rest) = 0 := by
        simp [boundBefore, hn1]
      have hheadt : head.topic = t := hsub1 ▸ ht1
      have hb2 : boundBefore t sub2.name (head :: rest) =
          1 + boundBefore t sub2.name rest := by
        simp [boundBefore, hn2, hheadt]
      rw [hb1, hb2]
      omega
    · by_cases hn2 : head.name = sub2.name
      · have hsub2 : sub2 = head := by
          rcases List.mem_cons.mp h2 with h | h
          · exact h
          · exact absurd (hn2 ▸ List.mem_map.mpr ⟨sub2, h, rfl⟩) hnotin
        have h1' : sub1 ∈ rest := by
          rcases List.mem_cons.mp h1 with h | h
          · exact absurd (h ▸ rfl : head.name = sub1.name) hn1
          · exact h
        have hb2 : boundBefore t sub2.name (head :: rest) = 0 := by
          simp [boundBefore, hn2]
        have hheadt : head.topic = t := hsub2 ▸ ht2
        have hb1 : boundBefore t sub1.name (head :: rest) =
            1 + boundBefore t sub1.name rest := by
          simp [boundBefore, hn1, hheadt]
        rw [hb1, hb2]
        omega
      · have h1' : sub1 ∈ rest := by
          rcases List.mem_cons.mp h1 with h | h
          · exact absurd (h ▸ rfl : head.name = sub1.name) hn1
          · exact h
        have h2' : sub2 ∈ rest := by
          rcases List.mem_cons.mp h2 with h | h
          · exact absurd (h ▸ rfl : head.name = sub2.name) hn2
          · exact h
        have hrec := ih hnd' sub1 h1' sub2 h2' ht1 ht2 hne
        have hb1 : boundBefore t sub1.name (head :: rest) =
            (if head.topic = t then 1 else 0) + boundBefore t sub1.name rest := by
          simp [boundBefore, hn1]
        have hb2 : boundBefore t sub2.name (head :: rest) =
            (if head.topic = t then 1 else 0) + boundBefore t sub2.name rest := by
          simp [boundBefore, hn2]
        rw [hb1, hb2]
        omega

theorem idRange_disjoint (L base b1 b2 : Nat) (hne : b1 ≠ b2) :
    ∀ x, x ∈ idRange (base + L * b1) L → x ∉ idRange (base + L * b2) L := by
  intro x hx1 hx2
  rw [mem_idRange] at hx1 hx2
  rcases Nat.lt_or_ge b1 b2 with hlt | hge
  · have : L * (b1 + 1) ≤ L * b2 := Nat.mul_le_mul_left L hlt
    have hmul : L * (b1 + 1) = L * b1 + L := by ring
    omega
  · have hlt2 : b2 < b1 := lt_of_le_of_ne hge fun hh => hne hh.symm
    have : L * (b2 + 1) ≤ L * b1 := Nat.mul_le_mul_left L hlt2
    have hmul : L * (b2 + 1) = L * b2 + L := by ring
    omega

theorem idRange_above_disjoint (L start b x : Nat) (hx : x ∈ idRange (start + L + L * b) L) :
    x ∉ idRange start L := by
  intro hc
  rw [mem_idRange] at hx hc
  omega

theorem ack_frame_other (s : Storage) (nm : String) (toks : List Nat) (now : Nat)
    (s2 : Storage) (h : s.acknowledge nm toks now = .ok s2) :
    ∀ nm', nm' ≠ nm → lookupQ nm' s2.messages = lookupQ nm' s.messages := by
  intro nm' hne
  by_cases hfs : (findSub nm s.subscriptions).isSome = true
  · cases hlq : lookupQ nm s.messages with
    | none => simp [Storage.acknowledge, hfs, hlq] at h
    | some q =>
      simp only [Storage.acknowledge, hfs, if_true, hlq] at h
      have h2 : s2 = { s with messages := setQ nm (ackMark toks now q) s.messages } :=
        (Except.ok.inj h).symm
      subst h2
      exact lookupQ_setQ_ne nm' nm _ s.messages hne
  · simp [Storage.acknowledge, hfs] at h

theorem name_inj (subs : List Subscription) (hnd : (subs.map Subscription.name).Nodup) :
    ∀ a ∈ subs, ∀ b ∈ subs, a.name = b.name → a = b := by
  induction subs with
  | nil => intro a ha; simp at ha
  | cons head rest ih =>
    intro a ha b hb hab
    have hnotin : head.name ∉ rest.map Subscription.name := by
      simp only [List.map_cons, List.nodup_cons] at hnd
      exact hnd.1
    have hnd' : (rest.map Subscription.name).Nodup := by
      simp only [List.map_cons, List.nodup_cons] at hnd
      exact hnd.2
    rcases List.mem_cons.mp ha with ha' | ha' <;> rcases List.mem_cons.mp hb with hb' | hb'
    · rw [ha', hb']
    · subst ha'
      have hmem : b.name ∈ rest.map Subscription.name := List.mem_map.mpr ⟨b, hb', rfl⟩
      rw [← hab] at hmem
      exact absurd hmem hnotin
    · subst hb'
      have hmem : a.name ∈ rest.map Subscription.name := List.mem_map.mpr ⟨a, ha', rfl⟩
      rw [hab] at hmem
      exact absurd hmem hnotin
    · exact ih hnd' a ha' b hb' hab

/-- C3: publishing a batch to a registered topic returns one fresh identifier
per message; every subscription bound to the topic gets, appended at the tail
of its queue and in batch order, one new lease per message — unacknowledged,
with an already-expired deadline, carrying the batch-shared message identifier
and a lease token fresh and distinct across all fan-out copies; queues of
subscriptions not bound to the topic are unchanged; with zero bound
subscriptions no queue changes at all while the identifiers are still
returned; and acknowledging a copy in one subscription leaves every other
subscription's queue untouched.  (Subscription names are pairwise distinct, as
in every reachable state.) -/
theorem spec_C3 (s : Storage) (t : String) (msgs : List PubSubMessage) (now : Nat)
    (ht : memS t s.topics = true)
    (hnd : (s.subscriptions.map Subscription.name).Nodup) :
    s.publish t msgs now = .ok (idRange s.nextID msgs.length,
      { s with
        messages := (publishFan t msgs (idRange s.nextID msgs.length) now
          s.subscriptions s.messages (s.nextID + msgs.length)).1,
        nextID := (publishFan t msgs (idRange s.nextID msgs.length) now
          s.subscriptions s.messages (s.nextID + msgs.length)).2 }) ∧
    ((idRange s.nextID msgs.length).length = msgs.length ∧
      (idRange s.nextID msgs.length).Nodup) ∧
    (∀ sub ∈ s.subscriptions, sub.topic ≠ t →
      lookupQ sub.name (publishFan t msgs (idRange s.nextID msgs.length) now
        s.subscriptions s.messages (s.nextID + msgs.length)).1 =
      lookupQ sub.name s.messages) ∧
    (∀ sub ∈ s.subscriptions, sub.topic = t →
      lookupQ sub.name (publishFan t msgs (idRange s.nextID msgs.length) now
        s.subscriptions s.messages (s.nextID + msgs.length)).1 =
      some ((lookupQ sub.name s.messages).getD [] ++
        mkLeases now (s.nextID + msgs.length +
          msgs.length * boundBefore t sub.name s.subscriptions)
          msgs (idRange s.nextID msgs.length))) ∧
    (∀ tok0,
      (mkLeases now tok0 msgs (idRange s.nextID msgs.length)).map
          (fun m => m.message.messageID) = idRange s.nextID msgs.length ∧
      (mkLeases now tok0 msgs (idRange s.nextID msgs.length)).map
          InternalMessage.ackID = idRange tok0 msgs.length ∧
      (idRange tok0 msgs.length).Nodup ∧
      (∀ m ∈ mkLeases now tok0 msgs (idRange s.nextID msgs.length),
        m.ackedAt = none ∧ m.deadlineAt = 0) ∧
      (mkLeases now tok0 msgs (idRange s.nextID msgs.length)).map
          (fun m => m.message.data) = msgs.map PubSubMessage.data) ∧
    (∀ sub1 ∈ s.subscriptions, ∀ sub2 ∈ s.subscriptions,
      sub1.topic = t → sub2.topic = t → sub1.name ≠ sub2.name →
      ∀ x, x ∈ idRange (s.nextID + msgs.length +
          msgs.length * boundBefore t sub1.name s.subscriptions) msgs.length →
        x ∉ idRange (s.nextID + msgs.length +
          msgs.length * boundBefore t sub2.name s.subscriptions) msgs.length) ∧
    (∀ sub ∈ s.subscriptions, sub.topic = t →
      ∀ x, x ∈ idRange (s.nextID + msgs.length +
          msgs.length * boundBefore t sub.name s.subscriptions) msgs.length →
        x ∉ idRange s.nextID msgs.length) ∧
    ((∀ sub ∈ s.subscriptions, sub.topic ≠ t) →
      (publishFan t msgs (idRange s.nextID msgs.length) now
        s.subscriptions s.messages (s.nextID + msgs.length)).1 = s.messages) ∧
    (∀ nm toks now2 s2,
      ({ s with
        messages := (publishFan t msgs (idRange s.nextID msgs.length) now
          s.subscriptions s.messages (s.nextID + msgs.length)).1,
        nextID := (publishFan t msgs (idRange s.nextID msgs.length) now
          s.subscriptions s.messages (s.nextID + msgs.length)).2 } : Storage).acknowledge
          nm toks now2 = .ok s2 →
      ∀ nm', nm' ≠ nm → lookupQ nm' s2.messages =
        lookupQ nm' (publishFan t msgs (idRange s.nextID msgs.length) now
          s.subscriptions s.messages (s.nextID + msgs.length)).1) := by
  have hlen : (idRange s.nextID msgs.length).length = msgs.length :=
    idRange_length msgs.length s.nextID
  refine ⟨by simp [Storage.publish, ht], ⟨hlen, idRange_nodup _ _⟩, ?_, ?_, ?_, ?_, ?_, ?_, ?_⟩
  · intro sub hsub htop
    apply publishFan_lookup_other
    intro sub' hsub' htop' hname
    exact htop (name_inj s.subscriptions hnd sub' hsub' sub hsub hname ▸ htop')
  · intro sub hsub htop
    rw [publishFan_lookup_bound t msgs _ now s.subscriptions s.messages
      (s.nextID + msgs.length) sub hnd hsub htop]
  · intro tok0
    refine ⟨?_, ?_, idRange_nodup _ _, mkLeases_pending now msgs _ tok0, ?_⟩
    · rw [mkLeases_map_msgID]
      exact List.take_of_length_le (le_of_eq hlen)
    · rw [mkLeases_map_ackID, hlen, Nat.min_self]
    · rw [mkLeases_map_data, hlen]
      exact List.take_of_length_le (le_of_eq (List.length_map _ _))
  · intro sub1 h1 sub2 h2 ht1 ht2 hne x hx
    exact idRange_disjoint msgs.length (s.nextID + msgs.length)
      (boundBefore t sub1.name s.subscriptions) (boundBefore t sub2.name s.subscriptions)
      (boundBefore_ne t s.subscriptions hnd sub1 h1 sub2 h2 ht1 ht2 hne) x hx
  · intro sub hsub htop x hx
    exact idRange_above_disjoint msgs.length s.nextID
      (boundBefore t sub.name s.subscriptions) x hx
  · intro hnb
    exact publishFan_unbound t msgs _ now s.subscriptions s.messages
      (s.nextID + msgs.length) hnb
  · intro nm toks now2 s2 hack nm' hne
    exact ack_frame_other _ nm toks now2 s2 hack nm' hne

/-- C3 witness: publishing two messages to `t1` in `exS3` (subscriptions `s1`
and `s3` bound to `t1`, `s2` bound to `t2`). -/
theorem spec_C3_witness :
    exS3.publish "t1" [⟨"a", []⟩, ⟨"b", []⟩] 5 = .ok (idRange exS3.nextID 2,
      { exS3 with
        messages := (publishFan "t1" [⟨"a", []⟩, ⟨"b", []⟩] (idRange exS3.nextID 2) 5
          exS3.subscriptions exS3.messages (exS3.nextID + 2)).1,
        nextID := (publishFan "t1" [⟨"a", []⟩, ⟨"b", []⟩] (idRange exS3.nextID 2) 5
          exS3.subscriptions exS3.messages (exS3.nextID + 2)).2 }) :=
  (spec_C3 exS3 "t1" [⟨"a", []⟩, ⟨"b", []⟩] 5 (by decide) (by decide)).1

/-! ## The registry/queue consistency invariant (C9) -/

theorem findSub_isSome_of_mem :
    ∀ (subs : List Subscription) (sub : Subscription), sub ∈ subs →
      (findSub sub.name subs).isSome = true := by
  intro subs
  induction subs with
  | nil => intro sub h; simp at h
  | cons head rest ih =>
    intro sub hmem
    by_cases h : head.name = sub.name
    · simp [findSub, h]
    · rcases List.mem_cons.mp hmem with h' | h'
      · exact absurd (h' ▸ rfl : head.name = sub.name) h
      · simp only [findSub, h, if_false]
        exact ih sub h'

theorem publishFan_lookup_isSome (t : String) (msgs : List PubSubMessage) (ids : List Nat)
    (now : Nat) :
    ∀ (subs : List Subscription) (m : List (String × List InternalMessage)) (tok : Nat)
      (nm : String),
      (lookupQ nm (publishFan t msgs ids now subs m tok).1).isSome = true ↔
        ((lookupQ nm m).isSome = true ∨ ∃ sub ∈ subs, sub.topic = t ∧ sub.name = nm) := by
  intro subs
  induction subs with
  | nil => intro m tok nm; simp [publishFan]
  | cons sub rest ih =>
    intro m tok nm
    by_cases htop : sub.topic = t
    · simp only [publishFan, htop, if_true]
      rw [ih]
      rw [lookupQ_setQ_isSome]
      constructor
      · rintro ((h | h) | ⟨sub', hs', ht', hn'⟩)
        · exact Or.inr ⟨sub, List.mem_cons_self _ _, htop, h.symm⟩
        · exact Or.inl h
        · exact Or.inr ⟨sub', List.mem_cons_of_mem _ hs', ht', hn'⟩
      · rintro (h | ⟨sub', hs', ht', hn'⟩)
        · exact Or.inl (Or.inr h)
        · rcases List.mem_cons.mp hs' with h' | h'
          · exact Or.inl (Or.inl (h' ▸ hn' : sub.name = nm).symm)
          · exact Or.inr ⟨sub', h', ht', hn'⟩
    · simp only [publishFan, htop, if_false]
      rw [ih]
      constructor
      · rintro (h | ⟨sub', hs', ht', hn'⟩)
        · exact Or.inl h
        · exact Or.inr ⟨sub', List.mem_cons_of_mem _ hs', ht', hn'⟩
      · rintro (h | ⟨sub', hs', ht', hn'⟩)
        · exact Or.inl h
        · rcases List.mem_cons.mp hs' with h' | h'
          · exact absurd (h' ▸ ht' : sub.topic = t) htop
          · exact Or.inr ⟨sub', h', ht', hn'⟩

theorem createTopic_inv {s s' : Storage} {nm : String} (h : s.createTopic nm = .ok s') :
    s'.subscriptions = s.subscriptions ∧ s'.messages = s.messages := by
  unfold Storage.createTopic at h
  by_cases hm : memS nm s.topics
  · simp [hm] at h
  · simp only [hm, Bool.false_eq_true, if_false, Except.ok.injEq] at h
    rw [← h]
    exact ⟨rfl, rfl⟩

theorem deleteTopic_inv {s s' : Storage} {nm : String} (h : s.deleteTopic nm = .ok s') :
    s'.subscriptions = s.subscriptions ∧ s'.messages = s.messages := by
  unfold Storage.deleteTopic at h
  by_cases hm : memS nm s.topics
  · simp only [hm, if_true, Except.ok.injEq] at h
    rw [← h]
    exact ⟨rfl, rfl⟩
  · simp [hm] at h

theorem createSubscription_inv {s s' : Storage} {nm tn : String}
    (h : s.createSubscription nm tn = .ok s') :
    s'.subscriptions = s.subscriptions ++ [⟨nm, tn⟩] ∧
    s'.messages = setQ nm [] s.messages := by
  unfold Storage.createSubscription at h
  by_cases hfs : (findSub nm s.subscriptions).isSome = true
  · simp [hfs] at h
  · by_cases ht : memS tn s.topics
    · simp only [hfs, Bool.false_eq_true, if_false, ht, if_true, Except.ok.injEq] at h
      rw [← h]
      exact ⟨rfl, rfl⟩
    · simp [hfs, ht] at h

theorem deleteSubscription_inv {s s' : Storage} {nm : String}
    (h : s.deleteSubscription nm = .ok s') :
    s'.subscriptions = removeSub nm s.subscriptions ∧
    s'.messages = removeQ nm s.messages := by
  unfold Storage.deleteSubscription at h
  by_cases hfs : (findSub nm s.subscriptions).isSome = true
  · simp only [hfs, if_true, Except.ok.injEq] at h
    rw [← h]
    exact ⟨rfl, rfl⟩
  · simp [hfs] at h

theorem publish_inv {s s' : Storage} {t : String} {msgs : List PubSubMessage} {now : Nat}
    {ids : List Nat} (h : s.publish t msgs now = .ok (ids, s')) :
    s'.subscriptions = s.subscriptions ∧
    s'.messages = (publishFan t msgs (idRange s.nextID msgs.length) now
      s.subscriptions s.messages (s.nextID + msgs.length)).1 := by
  unfold Storage.publish at h
  by_cases ht : memS t s.topics
  · simp only [ht, if_true, Except.ok.injEq, Prod.mk.injEq] at h
    rw [← h.2]
    exact ⟨rfl, rfl⟩
  · simp [ht] at h

theorem pull_inv {s s' : Storage} {nm : String} {maxM : Int} {now dur : Nat}
    {out : List ReceivedMessage} (h : s.pull nm maxM now dur = some (.ok (out, s'))) :
    s'.subscriptions = s.subscriptions ∧
    (s'.messages = s.messages ∨
      ((findSub nm s.subscriptions).isSome = true ∧ ∃ q,
        lookupQ nm s.messages = some q ∧
        s'.messages = setQ nm (pullLoop now dur maxM 0 q).2 s.messages)) := by
  unfold Storage.pull at h
  by_cases hfs : (findSub nm s.subscriptions).isSome = true
  · cases hlq : lookupQ nm s.messages with
    | none =>
      simp only [hfs, if_true, hlq, Option.some.injEq, Except.ok.injEq, Prod.mk.injEq] at h
      rw [← h.2]
      exact ⟨rfl, Or.inl rfl⟩
    | some q =>
      by_cases hneg : maxM < 0
      · simp [hfs, hlq, hneg] at h
      · simp only [hfs, if_true, hlq, hneg, Bool.false_eq_true, if_false,
          Option.some.injEq, Except.ok.injEq, Prod.mk.injEq] at h
        rw [← h.2]
        exact ⟨rfl, Or.inr ⟨hfs, q, rfl, rfl⟩⟩
  · simp [hfs] at h

theorem acknowledge_inv {s s' : Storage} {nm : String} {toks : List Nat} {now : Nat}
    (h : s.acknowledge nm toks now = .ok s') :
    s'.subscriptions = s.subscriptions ∧
    ((findSub nm s.subscriptions).isSome = true ∧ ∃ q,
      lookupQ nm s.messages = some q ∧
      s'.messages = setQ nm (ackMark toks now q) s.messages) := by
  unfold Storage.acknowledge at h
  by_cases hfs : (findSub nm s.subscriptions).isSome = true
  · cases hlq : lookupQ nm s.messages with
    | none => simp [hfs, hlq] at h
    | some q =>
      simp only [hfs, if_true, hlq, Except.ok.injEq] at h
      rw [← h]
      exact ⟨rfl, hfs, q, rfl, rfl⟩
  · simp [hfs] at h

theorem reachable_inv (s : Storage) (h : Reachable s) :
    ∀ nm, (findSub nm s.subscriptions).isSome = true ↔
      (lookupQ nm s.messages).isSome = true := by
  induction h with
  | new => intro nm; simp [newStorage, findSub, lookupQ]
  | createTopic hr heq ih =>
    intro nm
    obtain ⟨h1, h2⟩ := createTopic_inv heq
    rw [h1, h2]
    exact ih nm
  | deleteTopic hr heq ih =>
    intro nm
    obtain ⟨h1, h2⟩ := deleteTopic_inv heq
    rw [h1, h2]
    exact ih nm
  | createSubscription hr heq ih =>
    intro nm
    obtain ⟨h1, h2⟩ := createSubscription_inv heq
    rw [h1, h2, findSub_append_isSome, lookupQ_setQ_isSome]
    constructor
    · rintro (h | h)
      · exact Or.inr ((ih nm).mp h)
      · exact Or.inl h.symm
    · rintro (h | h)
      · exact Or.inr h.symm
      · exact Or.inl ((ih nm).mpr h)
  | deleteSubscription hr heq ih =>
    rename_i s0 s0' nm0
    intro nm
    obtain ⟨h1, h2⟩ := deleteSubscription_inv heq
    rw [h1, h2, findSub_removeSub, lookupQ_removeQ]
    by_cases hnm : nm = nm0
    · simp [hnm]
    · simp only [hnm, if_false]
      exact ih nm
  | publish hr heq ih =>
    intro nm
    obtain ⟨h1, h2⟩ := publish_inv heq
    rw [h1, h2, publishFan_lookup_isSome]
    constructor
    · intro h
      exact Or.inl ((ih nm).mp h)
    · rintro (h | ⟨sub, hs, ht', hn⟩)
      · exact (ih nm).mpr h
      · rw [← hn]
        exact findSub_isSome_of_mem _ sub hs
  | pull hr heq ih =>
    intro nm
    obtain ⟨h1, h2⟩ := pull_inv heq
    rw [h1]
    rcases h2 with h2 | ⟨hfs, q, hlq, h2⟩
    · rw [h2]
      exact ih nm
    · rw [h2, lookupQ_setQ_isSome]
      constructor
      · intro h
        exact Or.inr ((ih nm).mp h)
      · rintro (h | h)
        · rw [h]
          exact hfs
        · exact (ih nm).mpr h
  | acknowledge hr heq ih =>
    intro nm
    obtain ⟨h1, hfs, q, hlq, h2⟩ := acknowledge_inv heq
    rw [h1, h2, lookupQ_setQ_isSome]
    constructor
    · intro h
      exact Or.inr ((ih nm).mp h)
    · rintro (h | h)
      · rw [h]
        exact hfs
      · exact (ih nm).mpr h

/-- C9: in every storage state reachable from `NewStorage` by the engine's
operations, a subscription name is registered exactly when its queue record
exists; consequently `Acknowledge` never returns the MissingQueue error
(`"no messages for subscription"`) on a reachable state. -/
theorem spec_C9 (s : Storage) (h : Reachable s) :
    (∀ nm, (findSub nm s.subscriptions).isSome = true ↔
      (lookupQ nm s.messages).isSome = true) ∧
    (∀ nm toks now, s.acknowledge nm toks now ≠ .error .noMessagesForSubscription) := by
  have hinv := reachable_inv s h
  refine ⟨hinv, ?_⟩
  intro nm toks now hc
  by_cases hfs : (findSub nm s.subscriptions).isSome = true
  · cases hlq : lookupQ nm s.messages with
    | none =>
      have hcontra := (hinv nm).mp hfs
      rw [hlq] at hcontra
      simp at hcontra
    | some q => simp [Storage.acknowledge, hfs, hlq] at hc
  · simp [Storage.acknowledge, hfs] at hc

theorem exR_reachable : Reachable exR := by
  have h1 : newStorage.createTopic "t1" = .ok ⟨["t1"], [], [], 0⟩ := by decide
  have h2 : (⟨["t1"], [], [], 0⟩ : Storage).createSubscription "s1" "t1" = .ok exR := by
    decide
  exact Reachable.createSubscription (Reachable.createTopic Reachable.new h1) h2

/-- C9 witness: in the reachable state `exR` the registered subscription `s1`
has a queue record (the invariant instantiated). -/
theorem spec_C9_witness : (lookupQ "s1" exR.messages).isSome = true :=
  ((spec_C9 exR exR_reachable).1 "s1").mp (by decide)
